import Mathlib

/-!
Shallow embedding of the `state` Go package (github.com/lefelys/state).

The package builds a tree of lifecycle states.  Every variant embeds a
`group` (the merge primitive) and the variants override some of the
methods `Err`, `Value`, `cause`, `close`, `finishSig`.

This file models:
  * `GoError`   — Go error values; annotation wrapping via `fmt.Errorf("%s: %w", ...)`
                  is the constructor `GoError.wrap`.
  * `GoVal`     — Go `interface{}` values: `goNil` is the nil interface,
                  `prim ty data` a comparable value of dynamic type `ty`,
                  `noncmp ty` a value of a non-comparable dynamic type.
  * `St`        — a snapshot of a state tree: structure plus the fired/not
                  fired status of the channels the pure queries inspect.
                  `errSt` covers both `withError` and `withErrorGroup`
                  snapshots (an `errGroupState` is an `errState`).
  * the query functions `Err`, `Value`, `cause` translated clause by
    clause from the Go methods.
-/

/-- Go error values.  `timeout` is the sentinel `ErrTimeout`;
`wrap label e` is `fmt.Errorf("%s: %w", label, e)` as produced by
`annotationState`. -/
inductive GoError where
  | timeout
  | mk (msg : String)
  | wrap (label : String) (e : GoError)
deriving DecidableEq, Repr

/-- Go `interface{}` values.  `goNil` is the nil interface.  `prim ty data`
is a value of a comparable dynamic type, `noncmp ty` a value of a
non-comparable dynamic type (slice, map, function). -/
inductive GoVal where
  | goNil
  | prim (ty : Nat) (data : Nat)
  | noncmp (ty : Nat)
deriving DecidableEq, Repr

/-- `reflect.TypeOf(key).Comparable()` for a non-nil interface value. -/
def GoVal.comparableTy : GoVal → Bool
  | .goNil => true
  | .prim _ _ => true
  | .noncmp _ => false

/-- Snapshot of a state tree.

Each constructor carries the ordered child list of the embedded `group`
(`group.states`, after merge dropped the nils) and the fired status of the
channels inspected by the pure queries:

  * `shutdownSt doneFired ch` — a `shutdownState`; `doneFired` is whether
    its `done` channel (its finishSig) is closed.
  * `dependSt p ch finFired` — a `dependState` with parent `p`, children
    group `ch` and the status of its `finished` channel.
  * `errSt e ch` — an `errState` (also an `errGroupState`) currently
    holding error `e` (`none` = nil).
  * `valueSt key v ch` — a `valueState`; a stored Go nil value is
    `GoVal.goNil`.
  * `annotationSt label ch` — an `annotationState`.
-/
inductive St where
  | empty
  | group (ch : List St)
  | errSt (e : Option GoError) (ch : List St)
  | valueSt (key : GoVal) (v : GoVal) (ch : List St)
  | shutdownSt (doneFired : Bool) (ch : List St)
  | waitSt (ch : List St)
  | dependSt (p : St) (ch : List St) (finFired : Bool)
  | annotationSt (label : String) (ch : List St)
deriving Repr

mutual

/-- `State.Err`, variant by variant:
`group.Err` scans `g.states` and returns the first non-nil child error;
`errState.Err` returns the stored error only (it does not consult the
children); `valueState`, `shutdownState` and `waitState` promote
`group.Err`; `dependState.Err` asks the parent first, then the children;
`annotationState.Err` wraps the first non-nil child error with its label;
`emptyState.Err` is nil. -/
def St.errOf : St → Option GoError
  | .empty => none
  | .group ch => errFirst ch
  | .errSt e _ => e
  | .valueSt _ _ ch => errFirst ch
  | .shutdownSt _ ch => errFirst ch
  | .waitSt ch => errFirst ch
  | .dependSt p ch _ =>
    match St.errOf p with
    | some e => some e
    | none => errFirst ch
  | .annotationSt label ch =>
    match errFirst ch with
    | some e => some (GoError.wrap label e)
    | none => none

/-- The loop `for _, states := range g.states { if err := states.Err(); err != nil { return err } }`. -/
def errFirst : List St → Option GoError
  | [] => none
  | s :: rest =>
    match St.errOf s with
    | some e => some e
    | none => errFirst rest

end

mutual

/-- `State.Value(key)`, variant by variant.  A Go nil result is
`GoVal.goNil`.  `group.Value` scans children and returns the first
result that is not nil; `valueState.Value` returns its own stored value
(nil or not) when its key equals the query key, else delegates to the
group; `dependState.Value` asks the parent first; `errState`,
`shutdownState`, `waitState` and `annotationState` promote
`group.Value`; `emptyState.Value` is nil. -/
def St.valueOf : St → GoVal → GoVal
  | .empty, _ => .goNil
  | .group ch, k => valueFirst ch k
  | .errSt _ ch, k => valueFirst ch k
  | .valueSt key v ch, k => if key = k then v else valueFirst ch k
  | .shutdownSt _ ch, k => valueFirst ch k
  | .waitSt ch, k => valueFirst ch k
  | .dependSt p ch _, k =>
    match St.valueOf p k with
    | .goNil => valueFirst ch k
    | v => v
  | .annotationSt _ ch, k => valueFirst ch k

/-- The loop `for _, states := range g.states { if value = states.Value(key); value != nil { return value } }`. -/
def valueFirst : List St → GoVal → GoVal
  | [], _ => .goNil
  | s :: rest, k =>
    match St.valueOf s k with
    | .goNil => valueFirst rest k
    | v => v

end

mutual

/-- `closer.cause`, variant by variant:
`group.cause` scans children for the first non-nil cause;
`shutdownState.cause` first asks its group, then returns nil when its
`done` channel is already closed and `ErrTimeout` otherwise;
`dependState.cause` asks the children group first, then the parent;
`annotationState.cause` wraps a non-nil group cause with its label (a nil
cause passes through unannotated); `errState`, `valueState`, `waitState`
promote `group.cause`; `emptyState.cause` is nil. -/
def St.causeOf : St → Option GoError
  | .empty => none
  | .group ch => causeFirst ch
  | .errSt _ ch => causeFirst ch
  | .valueSt _ _ ch => causeFirst ch
  | .shutdownSt doneFired ch =>
    match causeFirst ch with
    | some e => some e
    | none => if doneFired then none else some GoError.timeout
  | .waitSt ch => causeFirst ch
  | .dependSt p ch _ =>
    match causeFirst ch with
    | some e => some e
    | none => St.causeOf p
  | .annotationSt label ch =>
    match causeFirst ch with
    | some e => some (GoError.wrap label e)
    | none => none

/-- The loop `for _, st := range g.states { if err := st.cause(); err != nil { return err } }`. -/
def causeFirst : List St → Option GoError
  | [] => none
  | s :: rest =>
    match St.causeOf s with
    | some e => some e
    | none => causeFirst rest

end

mutual

/-- A snapshot in which the whole branch has completed its teardown:
every `shutdownState.done`, every `dependState.finished` in it has fired.
This is the state a branch reaches after `close()` completed and every
owner called `Done()`. -/
def St.allDone : St → Bool
  | .empty => true
  | .group ch => allDoneL ch
  | .errSt _ ch => allDoneL ch
  | .valueSt _ _ ch => allDoneL ch
  | .shutdownSt doneFired ch => doneFired && allDoneL ch
  | .waitSt ch => allDoneL ch
  | .dependSt p ch finFired => finFired && St.allDone p && allDoneL ch
  | .annotationSt _ ch => allDoneL ch

/-- `allDone` over a child list. -/
def allDoneL : List St → Bool
  | [] => true
  | s :: rest => St.allDone s && allDoneL rest

end

/-- The `shutdown(ctx, c)` race from `shutdown.go`: `close()` is launched
in the background, then `finishSig` is raced against `ctx.Done()`.
`finishFirst` records which of the two fired first.  finishSig first →
return nil; deadline first → return `c.cause()`. -/
def shutdownRun (finishFirst : Bool) (s : St) : Option GoError :=
  if finishFirst then none else s.causeOf

example : (St.shutdownSt false []).causeOf = some GoError.timeout := rfl
example : (St.shutdownSt true []).causeOf = none := rfl
example :
    (St.annotationSt "job" [St.shutdownSt false []]).causeOf
      = some (GoError.wrap "job" GoError.timeout) := rfl

/-! ### Helper lemmas about the query functions -/

theorem errFirst_eq_findSome : ∀ ch : List St, errFirst ch = ch.findSome? St.errOf
  | [] => rfl
  | s :: rest => by
    rw [errFirst, List.findSome?_cons]
    cases St.errOf s <;> simp [errFirst_eq_findSome rest]

mutual

theorem causeOf_of_allDone : ∀ s : St, s.allDone = true → s.causeOf = none
  | .empty, _ => rfl
  | .group ch, h => causeFirst_of_allDoneL ch h
  | .errSt _ ch, h => causeFirst_of_allDoneL ch h
  | .valueSt _ _ ch, h => causeFirst_of_allDoneL ch h
  | .shutdownSt d ch, h => by
    rw [St.allDone, Bool.and_eq_true] at h
    rw [St.causeOf, causeFirst_of_allDoneL ch h.2, h.1]
    simp
  | .waitSt ch, h => causeFirst_of_allDoneL ch h
  | .dependSt p ch f, h => by
    rw [St.allDone, Bool.and_eq_true, Bool.and_eq_true] at h
    rw [St.causeOf, causeFirst_of_allDoneL ch h.2, causeOf_of_allDone p h.1.2]
  | .annotationSt _ ch, h => by
    rw [St.causeOf, causeFirst_of_allDoneL ch h]

theorem causeFirst_of_allDoneL : ∀ l : List St, allDoneL l = true → causeFirst l = none
  | [], _ => rfl
  | s :: rest, h => by
    rw [allDoneL, Bool.and_eq_true] at h
    rw [causeFirst, causeOf_of_allDone s h.1, causeFirst_of_allDoneL rest h.2]

end

/-! ### C1: the Shutdown race and `cause` -/

/-- C1: `Shutdown(ctx)` returns nil when the node's finishSig fires before
the deadline; when the deadline fires first it returns `cause()`.  On a
branch that has in fact completed at inspection time `cause()` is nil (a
completed branch is never misreported); for a shutdown-capable node whose
children report no cause but whose `done` signal has not fired, `cause()`
is the `ErrTimeout` sentinel; and a non-nil cause is annotated along the
path to the root by annotation nodes. -/
theorem shutdown_race_returns_nil_iff_finish_first :
    (∀ s : St, shutdownRun true s = none)
    ∧ (∀ s : St, shutdownRun false s = s.causeOf)
    ∧ (∀ s : St, s.allDone = true → s.causeOf = none)
    ∧ (∀ ch : List St, causeFirst ch = none →
        (St.shutdownSt false ch).causeOf = some GoError.timeout)
    ∧ (∀ (label : String) (s : St) (e : GoError), s.causeOf = some e →
        (St.annotationSt label [s]).causeOf = some (GoError.wrap label e)) := by
  refine ⟨fun s => rfl, fun s => rfl, causeOf_of_allDone, ?_, ?_⟩
  · intro ch h
    rw [St.causeOf, h]
    simp
  · intro label s e h
    rw [St.causeOf, causeFirst, h]

/-- Witness for C1 at concrete inputs. -/
theorem shutdown_race_returns_nil_iff_finish_first_witness :
    shutdownRun true (St.shutdownSt false []) = none
    ∧ shutdownRun false (St.shutdownSt true []) = (St.shutdownSt true []).causeOf
    ∧ (St.shutdownSt true [St.empty]).causeOf = none
    ∧ (St.shutdownSt false []).causeOf = some GoError.timeout
    ∧ (St.annotationSt "job" [St.shutdownSt false []]).causeOf
        = some (GoError.wrap "job" GoError.timeout) :=
  ⟨shutdown_race_returns_nil_iff_finish_first.1 _,
   shutdown_race_returns_nil_iff_finish_first.2.1 _,
   shutdown_race_returns_nil_iff_finish_first.2.2.1 (St.shutdownSt true [St.empty]) rfl,
   shutdown_race_returns_nil_iff_finish_first.2.2.2.1 [] rfl,
   shutdown_race_returns_nil_iff_finish_first.2.2.2.2 "job" (St.shutdownSt false [])
     GoError.timeout rfl⟩

/-! ### C7: Group `Err` order and annotation wrapping -/

/-- C7: `Err()` on a Group returns the first non-nil child error in the
original merge order (nil when every child's `Err` is nil); `Err()` on an
Annotation node is that same first non-nil child error prefixed with its
label, and is nil — unannotated — when no child carries an error. -/
theorem group_err_first_and_annotation_wrap :
    (∀ ch : List St, (St.group ch).errOf = ch.findSome? St.errOf)
    ∧ (∀ (label : String) (ch : List St),
        (St.annotationSt label ch).errOf
          = (ch.findSome? St.errOf).map (GoError.wrap label))
    ∧ (∀ (label : String) (ch : List St), ch.findSome? St.errOf = none →
        (St.annotationSt label ch).errOf = none) := by
  refine ⟨fun ch => errFirst_eq_findSome ch, ?_, ?_⟩
  · intro label ch
    rw [St.errOf, errFirst_eq_findSome ch]
    cases ch.findSome? St.errOf <;> rfl
  · intro label ch h
    rw [St.errOf, errFirst_eq_findSome ch, h]

/-- Witness for C7 at concrete inputs. -/
theorem group_err_first_and_annotation_wrap_witness :
    (St.group [St.empty, St.errSt (some (GoError.mk "boom")) [],
        St.errSt (some (GoError.mk "later")) []]).errOf = some (GoError.mk "boom")
    ∧ (St.annotationSt "api" [St.errSt (some (GoError.mk "boom")) []]).errOf
        = some (GoError.wrap "api" (GoError.mk "boom"))
    ∧ (St.annotationSt "api" [St.empty]).errOf = none :=
  ⟨(group_err_first_and_annotation_wrap.1 _).trans rfl,
   (group_err_first_and_annotation_wrap.2.1 "api" _).trans rfl,
   group_err_first_and_annotation_wrap.2.2 "api" [St.empty] rfl⟩

/-! ### C5: ErrorGroup first-write-wins -/

/-- The error slot of an `errState`, read and written under its lock.
`none` is a nil Go error. -/
structure ErrSlot where
  err : Option GoError
deriving DecidableEq, Repr

/-- `errState.Err`: return the stored error. -/
def ErrSlot.errRead (s : ErrSlot) : Option GoError := s.err

/-- `errGroupState.Error`:
`if err != nil { lock; if e.err == nil { e.err = err }; unlock }`. -/
def ErrSlot.errorCall (s : ErrSlot) (e : Option GoError) : ErrSlot :=
  match e with
  | none => s
  | some e0 =>
    match s.err with
    | none => ⟨some e0⟩
    | some _ => s

theorem errorCall_of_some (e : GoError) :
    ∀ x : Option GoError, (ErrSlot.mk (some e)).errorCall x = ErrSlot.mk (some e) := by
  intro x
  cases x <;> rfl

/-- C5: with no error set `Err()` returns nil; `Error(nil)` is a no-op;
the first `Error(e)` with non-nil `e` assigns `e`; and after an error is
assigned, any further sequence of `Error` calls leaves `Err()` returning
the first-assigned error. -/
theorem error_group_first_write_wins :
    (ErrSlot.mk none).errRead = none
    ∧ (∀ s : ErrSlot, s.errorCall none = s)
    ∧ (∀ e : GoError, (ErrSlot.mk none).errorCall (some e) = ErrSlot.mk (some e))
    ∧ (∀ (e : GoError) (calls : List (Option GoError)),
        (calls.foldl ErrSlot.errorCall (ErrSlot.mk (some e))).errRead = some e) := by
  refine ⟨rfl, fun s => rfl, fun e => rfl, ?_⟩
  intro e calls
  induction calls with
  | nil => rfl
  | cons x rest ih =>
    rw [List.foldl_cons, errorCall_of_some e x]
    exact ih

/-! ### C6 / C10: value resolution order -/

mutual

/-- Specification-side list of the values bound to key `k` anywhere in the
tree, in the resolution order the documentation describes: the node itself
first (the parent first for `dependState`), then the children left to
right in original merge order, recursively. -/
def St.bindings : St → GoVal → List GoVal
  | .empty, _ => []
  | .group ch, k => bindingsL ch k
  | .errSt _ ch, k => bindingsL ch k
  | .valueSt key v ch, k => (if key = k then [v] else []) ++ bindingsL ch k
  | .shutdownSt _ ch, k => bindingsL ch k
  | .waitSt ch, k => bindingsL ch k
  | .dependSt p ch _, k => St.bindings p k ++ bindingsL ch k
  | .annotationSt _ ch, k => bindingsL ch k

/-- `bindings` over a child list, left to right. -/
def bindingsL : List St → GoVal → List GoVal
  | [], _ => []
  | s :: rest, k => St.bindings s k ++ bindingsL rest k

end

mutual

theorem valueOf_of_bindings_nil :
    ∀ (s : St) (k : GoVal), s.bindings k = [] → s.valueOf k = GoVal.goNil
  | .empty, _, _ => rfl
  | .group ch, k, h => valueFirst_of_bindingsL_nil ch k h
  | .errSt _ ch, k, h => valueFirst_of_bindingsL_nil ch k h
  | .valueSt key v ch, k, h => by
    rw [St.bindings] at h
    rw [St.valueOf]
    by_cases hk : key = k
    · simp [hk] at h
    · simp only [hk, if_false]
      simp only [hk, if_false, List.nil_append] at h
      exact valueFirst_of_bindingsL_nil ch k h
  | .shutdownSt _ ch, k, h => valueFirst_of_bindingsL_nil ch k h
  | .waitSt ch, k, h => valueFirst_of_bindingsL_nil ch k h
  | .dependSt p ch f, k, h => by
    rw [St.bindings, List.append_eq_nil] at h
    rw [St.valueOf, valueOf_of_bindings_nil p k h.1]
    exact valueFirst_of_bindingsL_nil ch k h.2
  | .annotationSt _ ch, k, h => valueFirst_of_bindingsL_nil ch k h

theorem valueFirst_of_bindingsL_nil :
    ∀ (l : List St) (k : GoVal), bindingsL l k = [] → valueFirst l k = GoVal.goNil
  | [], _, _ => rfl
  | s :: rest, k, h => by
    rw [bindingsL, List.append_eq_nil] at h
    rw [valueFirst, valueOf_of_bindings_nil s k h.1]
    exact valueFirst_of_bindingsL_nil rest k h.2

end

mutual

theorem valueOf_eq_head_of_bindings :
    ∀ (s : St) (k : GoVal), (∀ b ∈ s.bindings k, b ≠ GoVal.goNil) →
      s.valueOf k = (s.bindings k).headD GoVal.goNil
  | .empty, _, _ => rfl
  | .group ch, k, h => valueFirst_eq_head_of_bindingsL ch k h
  | .errSt _ ch, k, h => valueFirst_eq_head_of_bindingsL ch k h
  | .valueSt key v ch, k, h => by
    rw [St.valueOf, St.bindings]
    by_cases hk : key = k
    · simp [hk]
    · simp only [hk, if_false, List.nil_append]
      rw [St.bindings] at h
      simp only [hk, if_false, List.nil_append] at h
      exact valueFirst_eq_head_of_bindingsL ch k h
  | .shutdownSt _ ch, k, h => valueFirst_eq_head_of_bindingsL ch k h
  | .waitSt ch, k, h => valueFirst_eq_head_of_bindingsL ch k h
  | .dependSt p ch f, k, h => by
    rw [St.bindings] at h
    have hp : ∀ b ∈ St.bindings p k, b ≠ GoVal.goNil :=
      fun b hb => h b (List.mem_append_left _ hb)
    have hch : ∀ b ∈ bindingsL ch k, b ≠ GoVal.goNil :=
      fun b hb => h b (List.mem_append_right _ hb)
    rw [St.valueOf, St.bindings]
    cases hpb : St.bindings p k with
    | nil =>
      rw [valueOf_of_bindings_nil p k hpb, List.nil_append]
      exact valueFirst_eq_head_of_bindingsL ch k hch
    | cons b bs =>
      have hv : St.valueOf p k = b := by
        rw [valueOf_eq_head_of_bindings p k hp, hpb, List.headD_cons]
      have hb : b ≠ GoVal.goNil := hp b (by rw [hpb]; exact List.mem_cons_self b bs)
      rw [hv, List.cons_append, List.headD_cons]
      cases b with
      | goNil => exact absurd rfl hb
      | prim ty data => rfl
      | noncmp ty => rfl
  | .annotationSt _ ch, k, h => valueFirst_eq_head_of_bindingsL ch k h

theorem valueFirst_eq_head_of_bindingsL :
    ∀ (l : List St) (k : GoVal), (∀ b ∈ bindingsL l k, b ≠ GoVal.goNil) →
      valueFirst l k = (bindingsL l k).headD GoVal.goNil
  | [], _, _ => rfl
  | s :: rest, k, h => by
    rw [bindingsL] at h
    have hs : ∀ b ∈ St.bindings s k, b ≠ GoVal.goNil :=
      fun b hb => h b (List.mem_append_left _ hb)
    have hrest : ∀ b ∈ bindingsL rest k, b ≠ GoVal.goNil :=
      fun b hb => h b (List.mem_append_right _ hb)
    rw [valueFirst, bindingsL]
    cases hsb : St.bindings s k with
    | nil =>
      rw [valueOf_of_bindings_nil s k hsb, List.nil_append]
      exact valueFirst_eq_head_of_bindingsL rest k hrest
    | cons b bs =>
      have hv : St.valueOf s k = b := by
        rw [valueOf_eq_head_of_bindings s k hs, hsb, List.headD_cons]
      have hb : b ≠ GoVal.goNil := hs b (by rw [hsb]; exact List.mem_cons_self b bs)
      rw [hv, List.cons_append, List.headD_cons]
      cases b with
      | goNil => exact absurd rfl hb
      | prim ty data => rfl
      | noncmp ty => rfl

end

/-- C6: `Value(k)` resolution is topmost, left-most.  A Value node whose
key equals `k` returns its own stored value without consulting children;
a Group scans children left to right returning the first non-nil answer;
a Dependency node consults the parent before its children; and, whenever
every value bound to `k` in the tree is non-nil, `Value(k)` on the root
returns the first binding in the self-then-children-left-to-right
(topmost, left-most) order. -/
theorem value_topmost_leftmost :
    (∀ (k v : GoVal) (ch : List St), (St.valueSt k v ch).valueOf k = v)
    ∧ (∀ (key k v : GoVal) (ch : List St), key ≠ k →
        (St.valueSt key v ch).valueOf k = valueFirst ch k)
    ∧ (∀ (ch : List St) (k : GoVal), (St.group ch).valueOf k = valueFirst ch k)
    ∧ (∀ (s : St) (rest : List St) (k : GoVal), s.valueOf k = GoVal.goNil →
        valueFirst (s :: rest) k = valueFirst rest k)
    ∧ (∀ (s : St) (rest : List St) (k v : GoVal),
        s.valueOf k = v → v ≠ GoVal.goNil → valueFirst (s :: rest) k = v)
    ∧ (∀ (p : St) (ch : List St) (f : Bool) (k v : GoVal),
        p.valueOf k = v → v ≠ GoVal.goNil → (St.dependSt p ch f).valueOf k = v)
    ∧ (∀ (p : St) (ch : List St) (f : Bool) (k : GoVal),
        p.valueOf k = GoVal.goNil → (St.dependSt p ch f).valueOf k = valueFirst ch k)
    ∧ (∀ (s : St) (k : GoVal), (∀ b ∈ s.bindings k, b ≠ GoVal.goNil) →
        s.valueOf k = (s.bindings k).headD GoVal.goNil) := by
  refine ⟨?_, ?_, fun ch k => rfl, ?_, ?_, ?_, ?_, valueOf_eq_head_of_bindings⟩
  · intro k v ch
    rw [St.valueOf, if_pos rfl]
  · intro key k v ch h
    rw [St.valueOf, if_neg h]
  · intro s rest k h
    rw [valueFirst, h]
  · intro s rest k v h hv
    rw [valueFirst, h]
    cases v with
    | goNil => exact absurd rfl hv
    | prim ty data => rfl
    | noncmp ty => rfl
  · intro p ch f k v h hv
    rw [St.valueOf, h]
    cases v with
    | goNil => exact absurd rfl hv
    | prim ty data => rfl
    | noncmp ty => rfl
  · intro p ch f k h
    rw [St.valueOf, h]

/-- Witness for C6 at a concrete tree with three bindings of key
`prim 0 1`: the topmost, left-most one (value `prim 0 10`) wins. -/
theorem value_topmost_leftmost_witness :
    (St.valueSt (GoVal.prim 0 1) (GoVal.prim 0 10) []).valueOf (GoVal.prim 0 1)
        = GoVal.prim 0 10
    ∧ (St.valueSt (GoVal.prim 0 2) (GoVal.prim 0 10) []).valueOf (GoVal.prim 0 1)
        = valueFirst [] (GoVal.prim 0 1)
    ∧ valueFirst [St.empty, St.valueSt (GoVal.prim 0 1) (GoVal.prim 0 30) []]
        (GoVal.prim 0 1) = GoVal.prim 0 30
    ∧ (St.group
        [St.valueSt (GoVal.prim 0 1) (GoVal.prim 0 10)
            [St.valueSt (GoVal.prim 0 1) (GoVal.prim 0 20) []],
         St.valueSt (GoVal.prim 0 1) (GoVal.prim 0 30) []]).valueOf (GoVal.prim 0 1)
        = GoVal.prim 0 10 := by
  refine ⟨value_topmost_leftmost.1 _ _ _,
    value_topmost_leftmost.2.1 _ _ _ _ (by decide), ?_, ?_⟩
  · exact value_topmost_leftmost.2.2.2.1 St.empty _ _ rfl
  · exact (value_topmost_leftmost.2.2.2.2.2.2.2 _ _ (by decide)).trans (by decide)

/-- C10: a Value node with a Go-nil stored value for key `k` short-circuits:
`Value(k)` directly on it is nil even when its own children bind a non-nil
value for `k`; but inside a Group the nil answer is treated as not-found
and the scan continues to later siblings, which can supply a value. -/
theorem nil_value_shortcircuit_vs_group_scan :
    (∀ (k : GoVal) (ch : List St),
        (St.valueSt k GoVal.goNil ch).valueOf k = GoVal.goNil)
    ∧ (∀ (k v : GoVal) (ch : List St),
        (St.valueSt k GoVal.goNil [St.valueSt k v ch]).valueOf k = GoVal.goNil)
    ∧ (∀ (k : GoVal) (ch : List St) (rest : List St),
        (St.group (St.valueSt k GoVal.goNil ch :: rest)).valueOf k = valueFirst rest k)
    ∧ (∀ (k v : GoVal) (ch : List St), v ≠ GoVal.goNil →
        (St.group [St.valueSt k GoVal.goNil ch, St.valueSt k v []]).valueOf k = v) := by
  have base : ∀ (k : GoVal) (ch : List St),
      (St.valueSt k GoVal.goNil ch).valueOf k = GoVal.goNil := by
    intro k ch
    rw [St.valueOf, if_pos rfl]
  refine ⟨base, fun k v ch => base k _, ?_, ?_⟩
  · intro k ch rest
    show valueFirst _ _ = _
    rw [valueFirst, base k ch]
  · intro k v ch hv
    show valueFirst _ _ = _
    rw [valueFirst, base k ch, valueFirst, St.valueOf, if_pos rfl]
    cases v with
    | goNil => exact absurd rfl hv
    | prim ty data => rfl
    | noncmp ty => rfl

/-- Witness for C10 at concrete inputs. -/
theorem nil_value_shortcircuit_vs_group_scan_witness :
    (St.group [St.valueSt (GoVal.prim 0 1) GoVal.goNil
        [St.valueSt (GoVal.prim 0 1) (GoVal.prim 0 9) []],
      St.valueSt (GoVal.prim 0 1) (GoVal.prim 0 5) []]).valueOf (GoVal.prim 0 1)
        = GoVal.prim 0 5 :=
  nil_value_shortcircuit_vs_group_scan.2.2.2 (GoVal.prim 0 1) (GoVal.prim 0 5)
    [St.valueSt (GoVal.prim 0 1) (GoVal.prim 0 9) []] (by decide)

/-! ### C9: Value key validation at construction -/

/-- `withValue(key, value, children...)`.  A Go `panic` is `Except.error`
here: the construction panics when the key is the nil interface, or when
`reflect.TypeOf(key).Comparable()` is false; otherwise it builds a
`valueState` storing the pair over the merged children (merge drops the
nil entries of the input slice). -/
def withValueModel (key value : GoVal) (children : List (Option St)) : Except String St :=
  if key = GoVal.goNil then Except.error "nil state value key"
  else if key.comparableTy = false then Except.error "state value key is not comparable"
  else Except.ok (St.valueSt key value (children.filterMap id))

/-- C9: construction of a Value node fails fatally exactly when the key is
nil or not equality-comparable — the three conjuncts cover the three
constructor shapes of a Go interface value exhaustively — and for a
non-nil comparable key it returns a node storing the (key, value) pair
over the merged children. -/
theorem with_value_key_validation :
    (∀ (v : GoVal) (ch : List (Option St)),
        withValueModel GoVal.goNil v ch = Except.error "nil state value key")
    ∧ (∀ (t : Nat) (v : GoVal) (ch : List (Option St)),
        withValueModel (GoVal.noncmp t) v ch
          = Except.error "state value key is not comparable")
    ∧ (∀ (t d : Nat) (v : GoVal) (ch : List (Option St)),
        withValueModel (GoVal.prim t d) v ch
          = Except.ok (St.valueSt (GoVal.prim t d) v (ch.filterMap id))) :=
  ⟨fun _ _ => rfl, fun _ _ _ => rfl, fun _ _ _ _ => rfl⟩

/-! ### C4: the Wait barrier -/

/-- `sync.WaitGroup.Add(delta)`: add `delta` to the counter; a negative
resulting counter panics (`Except.error`) with the runtime's message. -/
def wgAdd (c : Int) (delta : Int) : Except String Int :=
  if c + delta < 0 then Except.error "sync: negative WaitGroup counter"
  else Except.ok (c + delta)

/-- `sync.WaitGroup.Done()` is `Add(-1)`. -/
def wgDone (c : Int) : Except String Int := wgAdd c (-1)

/-- `sync.WaitGroup.Wait()` is released exactly when the counter has
reached zero; it blocks while the counter is positive. -/
def wgWaitReleased (c : Int) : Bool := decide (c ≤ 0)

/-- A sequence of `Add`/`Done` deltas applied to the barrier, propagating
a panic. -/
def wgRun (start : Int) (deltas : List Int) : Except String Int :=
  deltas.foldlM wgAdd start

/-- `waitState.Wait`: blocks on the node's own `sync.WaitGroup` and on the
wrapped group's aggregate `Wait`. -/
def waitStateReleased (c : Int) (groupReleased : Bool) : Bool :=
  wgWaitReleased c && groupReleased

/-- C4 counterexample: after `Add(3)` and three `Done()` the barrier is at
zero and `Wait()` is released, but a spurious fourth `Done()` panics with
`sync: negative WaitGroup counter` — it does cause a failure, refuting
the claim that a fourth `Done()` cannot fail (`WaitTail` delegates to
`sync.WaitGroup` and shares its mechanics). -/
theorem wait_barrier_fourth_done_claim_counterexample :
    wgRun 0 [3, -1, -1, -1] = Except.ok 0
    ∧ waitStateReleased 0 true = true
    ∧ wgRun 0 [3, -1, -1, -1, -1] = Except.error "sync: negative WaitGroup counter" :=
  ⟨rfl, rfl, rfl⟩

/-- C4 amended: `Add(3)` followed by three `Done()` releases `Wait()` and
no proper prefix of the `Done` calls releases it early; a spurious fourth
`Done()` does not produce an early or spurious release — it panics with
the `sync.WaitGroup` negative-counter error. -/
theorem wait_barrier_add3_done3_releases :
    wgRun 0 [3] = Except.ok 3 ∧ waitStateReleased 3 true = false
    ∧ wgRun 0 [3, -1] = Except.ok 2 ∧ waitStateReleased 2 true = false
    ∧ wgRun 0 [3, -1, -1] = Except.ok 1 ∧ waitStateReleased 1 true = false
    ∧ wgRun 0 [3, -1, -1, -1] = Except.ok 0 ∧ waitStateReleased 0 true = true
    ∧ wgRun 0 [3, -1, -1, -1, -1] = Except.error "sync: negative WaitGroup counter" :=
  ⟨rfl, rfl, rfl, rfl, rfl, rfl, rfl, rfl, rfl⟩

/-! ### C3: merge bookkeeping and the close wait loop -/

/-- A merged child as `merge` sees it: an identity and whether its
finishSig had already fired at merge time. -/
structure MChild where
  id : Nat
  finishedAtMerge : Bool
deriving DecidableEq, Repr

/-- The bookkeeping `merge` builds: the nil-filtered child slice
`g.states`, the `toClose` index set, and whether the group is the
pre-fired empty-merge neutral element (`done`/`finished` = `closedchan`). -/
structure MGroup where
  states : List MChild
  toClose : List Nat
  prefired : Bool
deriving DecidableEq, Repr

/-- `merge(states...)` from the source: an empty input yields the
pre-fired neutral group; otherwise nil inputs are skipped while building
`ss`, and `toClose` records — under each input's ORIGINAL index `i` in
the unfiltered slice, exactly as `toClose[i] = struct{}{}` does — every
non-nil input whose finishSig has not fired yet. -/
def mergeModel (inputs : List (Option MChild)) : MGroup :=
  if inputs = [] then ⟨[], [], true⟩
  else
    ⟨inputs.filterMap id,
     (List.range inputs.length).filter fun i =>
       match inputs.get? i with
       | some (some c) => !c.finishedAtMerge
       | _ => false,
     false⟩

/-- The wait loop of `group.close`:
`for i := range g.toClose { <-g.states[i].finishSig() ... }` — every
recorded index subscripts the FILTERED `states` slice; an out-of-range
subscript is a Go runtime panic (`Except.error`).  On success it returns
the ids of the children whose finishSig the loop blocks on. -/
def groupCloseWaits (g : MGroup) : Except String (List Nat) :=
  g.toClose.mapM fun i =>
    match g.states.get? i with
    | some c => Except.ok c.id
    | none => Except.error "index out of range"

/-- C3: evaluating the code at the failing input.  `merge(nil, st)` with
`st` not yet finished records `toClose = {1}` (the original index) while
`states` holds only one element, so the wait loop of `close()` subscripts
`g.states[1]` out of range and panics, instead of blocking on `st`'s
finishSig; without a preceding nil the same input is handled correctly. -/
theorem merge_nil_before_unfinished_close_panics :
    mergeModel [none, some ⟨7, false⟩] = ⟨[⟨7, false⟩], [1], false⟩
    ∧ groupCloseWaits (mergeModel [none, some ⟨7, false⟩])
        = Except.error "index out of range"
    ∧ groupCloseWaits (mergeModel [some ⟨7, false⟩, none]) = Except.ok [7] :=
  ⟨rfl, rfl, rfl⟩

/-! ### C8: fire-once channels and idempotent close

Dynamic model of the close protocol.  Each Go channel is a `Nat` counting
how many times `close(chan)` has executed on it; Go panics when that
count reaches 2, and every fire site in the source is guarded by a
`select`-on-the-channel check under a lock, modelled as `if 1 ≤ count`.
The blocking reads (`<-finishSig()`) do not change state; closing a node
to completion assumes the owners answer `End` with `Done`, which the
separate `doneCall` transition models. -/

/-- A state tree carrying channel fire counts.  Group children are paired
with the `toClose` flag recorded at merge time: `group.close` watchers
only close the children tracked there.

  * `group done finished ch` — `group.done` ("started closing") and
    `group.finished` counts.
  * `shutdownD gdone gfinished ch endC doneC` — the embedded group plus
    the `end` and `done` channels; `done` is this node's finishSig and is
    fired only by the owner's `Done()`.
  * `dependD parent gdone gfinished ch finC` — the children group plus
    the node's `finished` channel.
  * `annotD label gdone gfinished ch` — an annotation node over its group.
-/
inductive DSt where
  | empty
  | group (done finished : Nat) (ch : List (Bool × DSt))
  | shutdownD (gdone gfinished : Nat) (ch : List (Bool × DSt)) (endC doneC : Nat)
  | dependD (parent : DSt) (gdone gfinished : Nat) (ch : List (Bool × DSt)) (finC : Nat)
  | annotD (label : String) (gdone gfinished : Nat) (ch : List (Bool × DSt))
deriving Repr

mutual

/-- `close()`, variant by variant.
`group.close`: under the lock, return when `done` is already closed, else
close `done` — which releases the per-child watcher goroutines, each
closing its tracked child — wait for the tracked children and close
`finished`.  `shutdownState.close`: run the group close, wait for the
group, then fire `end` unless already fired; the owner's `Done` (not
`close`) fires `done`.  `dependState.close`: close the children group,
wait, close the parent, wait, then fire `finished` unless already fired.
`annotationState.close` is the promoted group close; `emptyState.close`
is a no-op. -/
def DSt.closeD : DSt → DSt
  | .empty => .empty
  | .group d f ch =>
    if 1 ≤ d then .group d f ch
    else .group (d + 1) (f + 1) (closeTracked ch)
  | .shutdownD d f ch e dn =>
    if 1 ≤ d then
      if 1 ≤ e then .shutdownD d f ch e dn
      else .shutdownD d f ch (e + 1) dn
    else
      if 1 ≤ e then .shutdownD (d + 1) (f + 1) (closeTracked ch) e dn
      else .shutdownD (d + 1) (f + 1) (closeTracked ch) (e + 1) dn
  | .dependD p d f ch fin =>
    if 1 ≤ d then
      if 1 ≤ fin then .dependD (DSt.closeD p) d f ch fin
      else .dependD (DSt.closeD p) d f ch (fin + 1)
    else
      if 1 ≤ fin then .dependD (DSt.closeD p) (d + 1) (f + 1) (closeTracked ch) fin
      else .dependD (DSt.closeD p) (d + 1) (f + 1) (closeTracked ch) (fin + 1)
  | .annotD label d f ch =>
    if 1 ≤ d then .annotD label d f ch
    else .annotD label (d + 1) (f + 1) (closeTracked ch)

/-- The watcher goroutines released by closing `group.done`: each closes
its child when the child was recorded in `toClose` at merge time. -/
def closeTracked : List (Bool × DSt) → List (Bool × DSt)
  | [] => []
  | (tr, c) :: rest => (tr, if tr then DSt.closeD c else c) :: closeTracked rest

end

/-- The owner-side `Done()` of `shutdownState` and `dependState.Done`:
fire the node's finish channel unless it is already closed.  A no-op on
the other variants. -/
def DSt.doneCall : DSt → DSt
  | .shutdownD d f ch e dn =>
    if 1 ≤ dn then .shutdownD d f ch e dn else .shutdownD d f ch e (dn + 1)
  | .dependD p d f ch fin =>
    if 1 ≤ fin then .dependD p d f ch fin else .dependD p d f ch (fin + 1)
  | s => s

mutual

/-- Fire-once soundness of a snapshot: every channel has been closed at
most once (a second `close(chan)` would be a Go panic) and a group's
`finished` never fires before its `done`. -/
def DSt.okD : DSt → Bool
  | .empty => true
  | .group d f ch => decide (f ≤ d) && decide (d ≤ 1) && okL ch
  | .shutdownD d f ch e dn =>
    decide (f ≤ d) && decide (d ≤ 1) && decide (e ≤ 1) && decide (dn ≤ 1) && okL ch
  | .dependD p d f ch fin =>
    DSt.okD p && (decide (f ≤ d) && decide (d ≤ 1) && decide (fin ≤ 1)) && okL ch
  | .annotD _ d f ch => decide (f ≤ d) && decide (d ≤ 1) && okL ch

/-- `okD` over a group's child list. -/
def okL : List (Bool × DSt) → Bool
  | [] => true
  | (_, c) :: rest => DSt.okD c && okL rest

end

mutual

theorem closeD_closeD : ∀ n : DSt, n.closeD.closeD = n.closeD
  | .empty => rfl
  | .group d f ch => by
    by_cases hd : 1 ≤ d
    · simp [DSt.closeD, hd]
    · simp [DSt.closeD, hd]
  | .shutdownD d f ch e dn => by
    by_cases hd : 1 ≤ d <;> by_cases he : 1 ≤ e <;>
      simp [DSt.closeD, hd, he]
  | .dependD p d f ch fin => by
    by_cases hd : 1 ≤ d <;> by_cases hf : 1 ≤ fin <;>
      simp [DSt.closeD, hd, hf, closeD_closeD p]
  | .annotD label d f ch => by
    by_cases hd : 1 ≤ d
    · simp [DSt.closeD, hd]
    · simp [DSt.closeD, hd]

theorem closeTracked_closeTracked :
    ∀ l : List (Bool × DSt), closeTracked (closeTracked l) = closeTracked l
  | [] => rfl
  | (tr, c) :: rest => by
    cases tr <;>
      simp [closeTracked, closeD_closeD c, closeTracked_closeTracked rest]

end

mutual

theorem okD_closeD : ∀ n : DSt, n.okD = true → n.closeD.okD = true
  | .empty, _ => rfl
  | .group d f ch, h => by
    simp only [DSt.okD, Bool.and_eq_true, decide_eq_true_eq] at h
    by_cases hd : 1 ≤ d
    · simp only [DSt.closeD, hd, if_true]
      simp only [DSt.okD, Bool.and_eq_true, decide_eq_true_eq]
      exact h
    · simp only [DSt.closeD, hd, if_false]
      simp only [DSt.okD, Bool.and_eq_true, decide_eq_true_eq]
      refine ⟨⟨by omega, by omega⟩, okL_closeTracked ch h.2⟩
  | .shutdownD d f ch e dn, h => by
    simp only [DSt.okD, Bool.and_eq_true, decide_eq_true_eq] at h
    obtain ⟨⟨⟨⟨hfd, hd1⟩, he1⟩, hdn1⟩, hch⟩ := h
    by_cases hd : 1 ≤ d <;> by_cases he : 1 ≤ e <;>
      simp only [DSt.closeD, hd, he, if_true, if_false] <;>
      simp only [DSt.okD, Bool.and_eq_true, decide_eq_true_eq]
    · exact ⟨⟨⟨⟨hfd, hd1⟩, he1⟩, hdn1⟩, hch⟩
    · exact ⟨⟨⟨⟨hfd, hd1⟩, by omega⟩, hdn1⟩, hch⟩
    · exact ⟨⟨⟨⟨by omega, by omega⟩, he1⟩, hdn1⟩, okL_closeTracked ch hch⟩
    · exact ⟨⟨⟨⟨by omega, by omega⟩, by omega⟩, hdn1⟩, okL_closeTracked ch hch⟩
  | .dependD p d f ch fin, h => by
    simp only [DSt.okD, Bool.and_eq_true, decide_eq_true_eq] at h
    obtain ⟨⟨hp, ⟨⟨hfd, hd1⟩, hfin1⟩⟩, hch⟩ := h
    by_cases hd : 1 ≤ d <;> by_cases hf : 1 ≤ fin <;>
      simp only [DSt.closeD, hd, hf, if_true, if_false] <;>
      simp only [DSt.okD, Bool.and_eq_true, decide_eq_true_eq]
    · exact ⟨⟨okD_closeD p hp, ⟨⟨hfd, hd1⟩, hfin1⟩⟩, hch⟩
    · exact ⟨⟨okD_closeD p hp, ⟨⟨hfd, hd1⟩, by omega⟩⟩, hch⟩
    · exact ⟨⟨okD_closeD p hp, ⟨⟨by omega, by omega⟩, hfin1⟩⟩, okL_closeTracked ch hch⟩
    · exact ⟨⟨okD_closeD p hp, ⟨⟨by omega, by omega⟩, by omega⟩⟩, okL_closeTracked ch hch⟩
  | .annotD label d f ch, h => by
    simp only [DSt.okD, Bool.and_eq_true, decide_eq_true_eq] at h
    by_cases hd : 1 ≤ d
    · simp only [DSt.closeD, hd, if_true]
      simp only [DSt.okD, Bool.and_eq_true, decide_eq_true_eq]
      exact h
    · simp only [DSt.closeD, hd, if_false]
      simp only [DSt.okD, Bool.and_eq_true, decide_eq_true_eq]
      refine ⟨⟨by omega, by omega⟩, okL_closeTracked ch h.2⟩

theorem okL_closeTracked : ∀ l : List (Bool × DSt), okL l = true → okL (closeTracked l) = true
  | [], _ => rfl
  | (tr, c) :: rest, h => by
    simp only [okL, Bool.and_eq_true] at h
    cases tr <;>
      simp only [closeTracked, if_true, if_false, okL, Bool.and_eq_true, Bool.false_eq_true] <;>
      exact ⟨by first | exact h.1 | exact okD_closeD c h.1, okL_closeTracked rest h.2⟩

end

/-- The fire count of a node's finishSig channel: `group.finished`,
`shutdownState.done`, `dependState.finished`, the annotation group's
`finished`; the empty state's finishSig is the shared `closedchan`,
counted here as a constant. -/
def DSt.finishCount : DSt → Nat
  | .empty => 1
  | .group _ f _ => f
  | .shutdownD _ _ _ _ dn => dn
  | .dependD _ _ _ _ fin => fin
  | .annotD _ _ f _ => f

/-- C8: on every variant a second `close()` after a completed first call
is a no-op — it neither panics by re-closing a channel nor refires any
signal (in particular the finishSig count is unchanged) — and from a
fire-once-sound snapshot `close()` never drives any channel's fire count
past one; the owner-side `Done()` is idempotent the same way. -/
theorem close_twice_is_noop :
    (∀ n : DSt, n.closeD.closeD = n.closeD)
    ∧ (∀ n : DSt, n.closeD.closeD.finishCount = n.closeD.finishCount)
    ∧ (∀ n : DSt, n.okD = true → n.closeD.okD = true)
    ∧ (∀ n : DSt, n.doneCall.doneCall = n.doneCall)
    ∧ (∀ n : DSt, n.okD = true → n.doneCall.okD = true) := by
  refine ⟨closeD_closeD, fun n => congrArg DSt.finishCount (closeD_closeD n),
    okD_closeD, ?_, ?_⟩
  · intro n
    cases n with
    | shutdownD d f ch e dn =>
      by_cases hdn : 1 ≤ dn <;> simp [DSt.doneCall, hdn]
    | dependD p d f ch fin =>
      by_cases hf : 1 ≤ fin <;> simp [DSt.doneCall, hf]
    | empty => rfl
    | group d f ch => rfl
    | annotD label d f ch => rfl
  · intro n h
    cases n with
    | shutdownD d f ch e dn =>
      simp only [DSt.okD, Bool.and_eq_true, decide_eq_true_eq] at h
      obtain ⟨⟨⟨⟨hfd, hd1⟩, he1⟩, hdn1⟩, hch⟩ := h
      by_cases hdn : 1 ≤ dn <;>
        simp only [DSt.doneCall, hdn, if_true, if_false] <;>
        simp only [DSt.okD, Bool.and_eq_true, decide_eq_true_eq]
      · exact ⟨⟨⟨⟨hfd, hd1⟩, he1⟩, hdn1⟩, hch⟩
      · exact ⟨⟨⟨⟨hfd, hd1⟩, he1⟩, by omega⟩, hch⟩
    | dependD p d f ch fin =>
      simp only [DSt.okD, Bool.and_eq_true, decide_eq_true_eq] at h
      obtain ⟨⟨hp, ⟨⟨hfd, hd1⟩, hfin1⟩⟩, hch⟩ := h
      by_cases hf : 1 ≤ fin <;>
        simp only [DSt.doneCall, hf, if_true, if_false] <;>
        simp only [DSt.okD, Bool.and_eq_true, decide_eq_true_eq]
      · exact ⟨⟨hp, ⟨⟨hfd, hd1⟩, hfin1⟩⟩, hch⟩
      · exact ⟨⟨hp, ⟨⟨hfd, hd1⟩, by omega⟩⟩, hch⟩
    | empty => exact h
    | group d f ch => exact h
    | annotD label d f ch => exact h

/-- Witness for C8 at a fresh shutdown node over a fresh tracked group
child. -/
theorem close_twice_is_noop_witness :
    (DSt.shutdownD 0 0 [(true, DSt.group 0 0 [])] 0 0).closeD.closeD
        = (DSt.shutdownD 0 0 [(true, DSt.group 0 0 [])] 0 0).closeD
    ∧ (DSt.shutdownD 0 0 [(true, DSt.group 0 0 [])] 0 0).closeD.okD = true
    ∧ (DSt.shutdownD 0 0 [(true, DSt.group 0 0 [])] 0 0).doneCall.okD = true :=
  ⟨close_twice_is_noop.1 _,
   close_twice_is_noop.2.2.1 _ rfl,
   close_twice_is_noop.2.2.2.2 _ rfl⟩

/-! ### C2: children finish strictly before the parent's close starts

Trace semantics of the blocking close protocol.  A trace is the sequence
of channel-fire events in the order the blocking code produces them; the
list order IS the temporal order.  Every shutdownable job is modelled
with a responsive owner: after `end` fires the owner tears down and calls
`Done`, firing the node's finishSig.  Inside a group the tracked children
close concurrently, in any order — the child list of the tree is
quantified over, so the theorems hold for every completion order — and
`group.close` returns, firing `finished`, only after every child's
finishSig has fired, so every interleaving keeps all child events inside
the children segment. -/

/-- A channel-fire event, tagged with the id of the node it belongs to. -/
inductive Ev where
  | closeStart (id : Nat)
  | endFired (id : Nat)
  | finished (id : Nat)
deriving DecidableEq, Repr

/-- Nodes for the trace semantics.
`job id` is a `withShutdown()` leaf (its merged group is empty and
pre-fired) with a responsive owner.  `grp id ch` is a merged group of
unfinished children.  `dep id gid p ch` is a `dependState` with its own
id, the id of its children group, parent `p` and children `ch`. -/
inductive TSt where
  | job (id : Nat)
  | grp (id : Nat) (ch : List TSt)
  | dep (id gid : Nat) (p : TSt) (ch : List TSt)
deriving Repr

/-- The id whose `finished` event is the node's finishSig. -/
def TSt.rootId : TSt → Nat
  | .job i => i
  | .grp i _ => i
  | .dep i _ _ _ => i

mutual

/-- The event trace of `close()` run to completion.
`job`: fire `end` (its empty group is pre-fired), the owner answers with
`Done`, the finishSig.  `grp`: fire `done` (started closing), the
watchers close every child and the loop blocks until each child's
finishSig has fired, then fire `finished`.  `dep`: close the children
group and block on its finishSig, only then close the parent and block
on its finishSig, only then fire this node's `finished` — the strict
sequential ordering of `dependState.close`. -/
def TSt.closeTr : TSt → List Ev
  | .job i => [Ev.closeStart i, Ev.endFired i, Ev.finished i]
  | .grp i ch => Ev.closeStart i :: (closeTrL ch ++ [Ev.finished i])
  | .dep i gid p ch =>
    (Ev.closeStart gid :: (closeTrL ch ++ [Ev.finished gid]))
      ++ TSt.closeTr p ++ [Ev.finished i]

/-- The child traces of a group's concurrent fan-out, in the (arbitrary,
quantified-over) order the children complete. -/
def closeTrL : List TSt → List Ev
  | [] => []
  | c :: rest => TSt.closeTr c ++ closeTrL rest

end

theorem closeTr_ends_with_finished :
    ∀ t : TSt, ∃ l : List Ev, t.closeTr = l ++ [Ev.finished t.rootId]
  | .job i => ⟨[Ev.closeStart i, Ev.endFired i], rfl⟩
  | .grp i ch => ⟨Ev.closeStart i :: closeTrL ch, by simp [TSt.closeTr, TSt.rootId]⟩
  | .dep i gid p ch =>
    ⟨(Ev.closeStart gid :: (closeTrL ch ++ [Ev.finished gid])) ++ TSt.closeTr p,
     by simp [TSt.closeTr, TSt.rootId]⟩

theorem mem_closeTrL_of_mem :
    ∀ (ch : List TSt) (c : TSt), c ∈ ch → ∀ e ∈ c.closeTr, e ∈ closeTrL ch
  | [], _, h => absurd h (List.not_mem_nil _)
  | x :: rest, c, h => by
    intro e he
    rcases List.mem_cons.mp h with h1 | h2
    · subst h1
      exact List.mem_append_left _ he
    · exact List.mem_append_right _ (mem_closeTrL_of_mem rest c h2 e he)

/-- C2: closing a Dependency node produces the trace
"children-group segment, then the parent's whole close sequence, then the
node's own finished" — list order being temporal order, every event of
the children segment precedes every event of the parent's close sequence.
Every child's finishSig event lies inside the children segment (so each
child finishes strictly before the parent's close sequence starts), the
children group's own finished closes that segment, and the parent's
trace ends with the parent's finishSig — after which alone the node's
own finished fires. -/
theorem depend_children_finish_before_parent :
    ∀ (i gid : Nat) (p : TSt) (ch : List TSt),
      (TSt.dep i gid p ch).closeTr
        = (Ev.closeStart gid :: (closeTrL ch ++ [Ev.finished gid]))
            ++ p.closeTr ++ [Ev.finished i]
      ∧ (∀ c ∈ ch, Ev.finished c.rootId ∈ closeTrL ch)
      ∧ (∃ l : List Ev, p.closeTr = l ++ [Ev.finished p.rootId]) := by
  intro i gid p ch
  refine ⟨rfl, ?_, closeTr_ends_with_finished p⟩
  intro c hc
  obtain ⟨l, hl⟩ := closeTr_ends_with_finished c
  exact mem_closeTrL_of_mem ch c hc _ (by rw [hl]; exact List.mem_append_right _ (List.mem_singleton.mpr rfl))

/-- Witness for C2: a dependency of one job on another. -/
theorem depend_children_finish_before_parent_witness :
    (TSt.dep 0 1 (TSt.job 2) [TSt.job 3]).closeTr
      = [Ev.closeStart 1, Ev.closeStart 3, Ev.endFired 3, Ev.finished 3,
         Ev.finished 1, Ev.closeStart 2, Ev.endFired 2, Ev.finished 2,
         Ev.finished 0]
    ∧ Ev.finished 3 ∈ closeTrL [TSt.job 3]
    ∧ (∃ l : List Ev, (TSt.job 2).closeTr = l ++ [Ev.finished 2]) :=
  ⟨((depend_children_finish_before_parent 0 1 (TSt.job 2) [TSt.job 3]).1).trans rfl,
   (depend_children_finish_before_parent 0 1 (TSt.job 2) [TSt.job 3]).2.1
     (TSt.job 3) (List.mem_singleton.mpr rfl),
   (depend_children_finish_before_parent 0 1 (TSt.job 2) [TSt.job 3]).2.2⟩
